import Mathlib

/-!
# Verification of the aptamer design utilities (boltzdesign/aptamer_utils.py)

Shallow embedding of the module's functions over exact reals / rationals:

* tensors of logits or probabilities are nested lists `List (List (List ℝ))`
  with dimensions [batch, position, vocabulary];
* `torch.softmax(x, dim=-1)` is modelled as the mathematical normalized
  exponential (the max-subtraction the library performs for floating-point
  stability is an identity over exact reals);
* `tensor.mean()` over an empty tensor yields NaN in torch, and a shape
  mismatch in `torch.einsum` raises; both "no real number result" outcomes
  are modelled by `Option ℝ` being `none`;
* Python float arithmetic is modelled by exact real arithmetic, and the
  discrete string utilities (which only ever divide integer counts) use `ℚ`
  so that they are decidable;
* `probs[..., k]` indexing is modelled with `List.getD k 0`; an out-of-range
  vocabulary index is a caller-side configuration error per the spec, so the
  claims are exercised on tensors with the vocabulary laid out as in the
  source (RNA: A=24, G=25, C=26, U=27; DNA: DA=29, DG=30, DC=31, DT=32).
-/

noncomputable section

/-- Tensors of shape [batch, position, vocab]. -/
abbrev Tensor3 := List (List (List ℝ))

/-- Mean of a list of reals; `none` models torch returning NaN on the mean of
an empty tensor. -/
def rmean (l : List ℝ) : Option ℝ :=
  if l = [] then none else some (l.sum / l.length)

/-- Monadic map over `Option`, written as an explicit recursion so that its
equations unfold definitionally. A `none` anywhere (a NaN / error in any
sub-computation) poisons the whole result, as NaN does in torch. -/
def omapM (f : α → Option β) : List α → Option (List β)
  | [] => some []
  | a :: l =>
    match f a, omapM f l with
    | some b, some bs => some (b :: bs)
    | _, _ => none

/-- NaN-propagating addition of modelled floats. -/
def oadd : Option ℝ → Option ℝ → Option ℝ
  | some a, some b => some (a + b)
  | _, _ => none

/-- One softmax slice: `torch.softmax(v, dim=-1)` over exact reals. -/
def softmax1 (v : List ℝ) : List ℝ :=
  v.map (fun x => Real.exp x / (v.map Real.exp).sum)

/-- Softmax applied along the vocabulary axis of a [batch, position, vocab]
tensor, as every loss function in the module does first. -/
def softmaxT (t : Tensor3) : Tensor3 :=
  t.map (fun row => row.map softmax1)

/-- Adding the same constant to every vocabulary entry of every position
(used to state shift invariance of the losses). -/
def shiftT (c : ℝ) (t : Tensor3) : Tensor3 :=
  t.map (fun row => row.map (fun p => p.map (fun x => x + c)))

/-- probs.shape[1], the sequence length of a [batch, position, vocab] tensor. -/
def seqLen (t : Tensor3) : ℕ := (t.headD []).length

/-- probs.shape[-1], the vocabulary size. -/
def vocabSize (t : Tensor3) : ℕ := ((t.headD []).headD []).length

/-- Per-position GC probability: `probs[..., 25] + probs[..., 26]` (RNA G+C)
versus `probs[..., 30] + probs[..., 31]` (DNA DG+DC), elementwise maximum. -/
def gcPos (p : List ℝ) : ℝ :=
  max (p.getD 25 0 + p.getD 26 0) (p.getD 30 0 + p.getD 31 0)

/-- gc_content_loss after the softmax: mean GC probability along the sequence
for each batch item, then mean squared deviation from the target over the
batch, times the weight. -/
def gc_content_loss_probs (probs : Tensor3) (target_gc weight : ℝ) : Option ℝ :=
  (omapM (fun row => rmean (row.map gcPos)) probs).bind fun rowMeans =>
    (rmean (rowMeans.map (fun m => (m - target_gc) ^ 2))).map fun l => weight * l

/-- gc_content_loss(logits, target_gc, weight). -/
def gc_content_loss (logits : Tensor3) (target_gc weight : ℝ) : Option ℝ :=
  gc_content_loss_probs (softmaxT logits) target_gc weight

/-- Per-position entropy with the source's 1e-10 epsilon inside the log:
`-(probs * log(probs + 1e-10)).sum(dim=-1)`. -/
def entropy1 (p : List ℝ) : ℝ :=
  -(p.map (fun x => x * Real.log (x + 1 / 10 ^ 10))).sum

/-- sequence_complexity_loss after the softmax: mean entropy over every
(batch, position), normalized by log(vocab size), inverted, times weight. -/
def sequence_complexity_loss_probs (probs : Tensor3) (weight : ℝ) : Option ℝ :=
  (rmean ((probs.map (fun row => row.map entropy1)).flatten)).map fun me =>
    weight * (1 - me / Real.log (vocabSize probs))

/-- sequence_complexity_loss(logits, weight). -/
def sequence_complexity_loss (logits : Tensor3) (weight : ℝ) : Option ℝ :=
  sequence_complexity_loss_probs (softmaxT logits) weight

/-- Inner product of two vocabulary distributions; entry (l, m) of the
similarity matrix `einsum('...li,...mi->...lm', probs, probs)`. -/
def dotP (a b : List ℝ) : ℝ := (List.zipWith (fun x y => x * y) a b).sum

/-- The offset-i diagonal of one batch item's similarity matrix:
`torch.diagonal(similarity, offset=i, dim1=-2, dim2=-1)`, whose entries are
the inner products of positions exactly i apart. -/
def diagVals (row : List (List ℝ)) (i : ℕ) : List ℝ :=
  (List.range (row.length - i)).map fun l => dotP (row.getD l []) (row.getD (l + i) [])

/-- homopolymer_penalty after the softmax: for each offset i in
range(1, min(max_run + 1, L)), the mean of the offset-i diagonal over the
batch, scaled by i / max_run, summed, times the weight. -/
def homopolymer_penalty_probs (probs : Tensor3) (max_run : ℕ) (weight : ℝ) : Option ℝ :=
  let offs := (List.range (min (max_run + 1) (seqLen probs))).drop 1
  (omapM (fun i =>
      (rmean ((probs.map (fun row => diagVals row i)).flatten)).map fun m =>
        m * ((i : ℝ) / (max_run : ℝ))) offs).map fun terms => weight * terms.sum

/-- homopolymer_penalty(logits, max_run, weight). -/
def homopolymer_penalty (logits : Tensor3) (max_run : ℕ) (weight : ℝ) : Option ℝ :=
  homopolymer_penalty_probs (softmaxT logits) max_run weight

/-- Python slice `row[-n:]`: for n = 0 this is `row[0:]`, the whole list (the
`-0` slip in the source's hairpin branch), otherwise the last n entries. -/
def pyTail (n : ℕ) (row : List (List ℝ)) : List (List ℝ) :=
  if n = 0 then row else row.drop (row.length - n)

/-- One batch item of `einsum('...li,...li->...l', a, b)`: requires equal
lengths along l, broadcasting a length of 1; any other mismatch raises in
torch, modelled as `none`. -/
def einsumRow (a b : List (List ℝ)) : Option (List ℝ) :=
  if a.length = b.length then some (List.zipWith dotP a b)
  else if a.length = 1 then some (b.map fun r => dotP (a.headD []) r)
  else if b.length = 1 then some (a.map fun r => dotP r (b.headD []))
  else none

/-- `einsum('...li,...li->...l', A, B)` over the batch, flattened to the list
of all complementarity values (the order is irrelevant: only its mean is
used). -/
def einsumRows (A B : Tensor3) : Option (List ℝ) :=
  (omapM (fun ab => einsumRow ab.1 ab.2) (List.zip A B)).map List.flatten

/-- aptamer_structure_loss after the softmax: dispatch on structure_type.
hairpin: stem = min(6, L // 3); the 5-prime stem is probs[:, :stem, :], the
3-prime stem is probs[:, -stem:, :] flipped along the position axis; the mean
inner product of paired positions is negated. g_quadruplex: negated mean of
max(probs[..., 25], probs[..., 30]). Anything else: zero loss. -/
def aptamer_structure_loss_probs (probs : Tensor3) (structure_type : String)
    (weight : ℝ) : Option ℝ :=
  if structure_type = "hairpin" then
    let stem := min 6 (seqLen probs / 3)
    let stem5 := probs.map fun row => row.take stem
    let stem3 := probs.map fun row => (pyTail stem row).reverse
    (einsumRows stem5 stem3).bind fun comp =>
      (rmean comp).map fun s => weight * (-s)
  else if structure_type = "g_quadruplex" then
    (rmean ((probs.map (fun row =>
        row.map fun p => max (p.getD 25 0) (p.getD 30 0))).flatten)).map fun m =>
      weight * (-m)
  else some (weight * 0)

/-- aptamer_structure_loss(logits, structure_type, weight). -/
def aptamer_structure_loss (logits : Tensor3) (structure_type : String)
    (weight : ℝ) : Option ℝ :=
  aptamer_structure_loss_probs (softmaxT logits) structure_type weight

/-- Lookup of a weight key in the weights dictionary; `none` models the
KeyError Python raises for a missing key. -/
def wlookup : List (String × ℝ) → String → Option ℝ
  | [], _ => none
  | (k, v) :: rest, key => if k = key then some v else wlookup rest key

/-- Python truthiness of the optional structure_type argument: None and the
empty string are falsy. -/
def strTruthy : Option String → Bool
  | none => false
  | some s => !(s == "")

/-- The default weights dictionary the aggregator builds when weights=None. -/
def defaultWeights : List (String × ℝ) :=
  [("gc_content", 0.1), ("complexity", 0.2), ("homopolymer", 0.3), ("structure", 0.15)]

/-- Successful aggregator result: the total is the left-associated sum of the
four term values, and the breakdown lists every term plus the total, in the
source's insertion order. -/
def mkResult (gc comp homo stl : Option ℝ) :
    Except String (Option ℝ × List (String × Option ℝ)) :=
  let total := oadd (oadd (oadd gc comp) homo) stl
  Except.ok (total,
    [("gc_content_loss", gc), ("complexity_loss", comp),
     ("homopolymer_loss", homo), ("structure_loss", stl),
     ("total_aptamer_loss", total)])

/-- aptamer_design_loss(logits, target_gc, structure_type, weights). The
error value carries the missing weight key, modelling the KeyError Python
raises; lookups happen in the source's evaluation order, so the first
missing key is the one reported. -/
def aptamer_design_loss (logits : Tensor3) (target_gc : ℝ)
    (structure_type : Option String) (weights : List (String × ℝ)) :
    Except String (Option ℝ × List (String × Option ℝ)) :=
  match wlookup weights "gc_content" with
  | none => Except.error "gc_content"
  | some wg =>
    match wlookup weights "complexity" with
    | none => Except.error "complexity"
    | some wc =>
      match wlookup weights "homopolymer" with
      | none => Except.error "homopolymer"
      | some wh =>
        let gc := gc_content_loss logits target_gc wg
        let comp := sequence_complexity_loss logits wc
        let homo := homopolymer_penalty logits 4 wh
        if strTruthy structure_type then
          match wlookup weights "structure" with
          | none => Except.error "structure"
          | some ws =>
            mkResult gc comp homo
              (aptamer_structure_loss logits (structure_type.getD "") ws)
        else
          mkResult gc comp homo (some 0)

/-- Lookup in the returned breakdown dictionary. -/
def dlookup : List (String × Option ℝ) → String → Option ℝ
  | [], _ => none
  | (k, v) :: rest, key => if k = key then v else dlookup rest key

/-- Whether an aggregator result is a normal return (no KeyError). -/
def isOkE : Except String (Option ℝ × List (String × Option ℝ)) → Bool
  | Except.ok _ => true
  | Except.error _ => false

/-- The consistency property of a returned breakdown: the total entry equals
the returned scalar, which equals the sum of the four listed term entries.
A raised KeyError returns no breakdown, so there is nothing to check. -/
def breakdownConsistent :
    Except String (Option ℝ × List (String × Option ℝ)) → Prop
  | Except.error _ => True
  | Except.ok (total, d) =>
      dlookup d "total_aptamer_loss" = total ∧
      total = oadd (oadd (oadd (dlookup d "gc_content_loss")
        (dlookup d "complexity_loss")) (dlookup d "homopolymer_loss"))
        (dlookup d "structure_loss")

/-- Python str.upper() on the character list of a sequence string. -/
def upChars (s : String) : List Char := s.toList.map Char.toUpper

/-- calculate_gc_content(sequence): (G count + C count) / length, 0 for the
empty string. Exact rational in place of Python float. -/
def calculate_gc_content (s : String) : ℚ :=
  let u := upChars s
  if 0 < u.length then ((u.count 'G' + u.count 'C' : ℕ) : ℚ) / (u.length : ℚ) else 0

/-- The tm value before the magnesium adjustment: Wallace rule below length
14, otherwise the approximate nearest-neighbor formula. -/
def tmBase (s : String) (na_conc : ℝ) : ℝ :=
  if (upChars s).length < 14 then
    2 * (((upChars s).count 'A' : ℝ) + ((upChars s).count 'T' : ℝ) +
      ((upChars s).count 'U' : ℝ)) +
      4 * (((upChars s).count 'G' : ℝ) + ((upChars s).count 'C' : ℝ))
  else
    81.5 + 16.6 * Real.logb 10 (na_conc / 1000) +
      0.41 * ((calculate_gc_content s : ℝ) * 100) - 675 / ((upChars s).length : ℝ)

/-- calculate_tm(sequence, na_conc, mg_conc): the magnesium correction is
added outside the length branch, hence in both cases, whenever mg_conc > 0. -/
def calculate_tm (s : String) (na_conc mg_conc : ℝ) : ℝ :=
  if 0 < mg_conc then tmBase s na_conc + Real.logb 10 mg_conc * 2
  else tmBase s na_conc

/-- Python substring containment `pat in l` on character lists. -/
def containsSub (pat l : List Char) : Bool :=
  (List.range (l.length + 1)).any fun i => (l.drop i).take pat.length == pat

/-- Python string repetition `l * k` for the repeat check. -/
def repConcat (k : ℕ) (l : List Char) : List Char :=
  (List.replicate k l).flatten

/-- validate_aptamer_sequence(sequence, min_length, max_length): the checks
in source order, short-circuiting on the first failure. The messages that
interpolate non-string values (the invalid-character set and the formatted
GC percentage) are abstracted to fixed texts; every message a claim touches
is exact. -/
def validate_aptamer_sequence (s : String) (min_length max_length : ℕ) :
    Bool × String :=
  let u := upChars s
  let length := u.length
  if length < min_length then
    (false, "Sequence too short (" ++ toString length ++ " < " ++ toString min_length ++ ")")
  else if length > max_length then
    (false, "Sequence too long (" ++ toString length ++ " > " ++ toString max_length ++ ")")
  else if u.any (fun c => !(['A', 'C', 'G', 'T', 'U'].contains c)) then
    (false, "Invalid nucleotides")
  else if calculate_gc_content s < 3 / 10 ∨ 7 / 10 < calculate_gc_content s then
    (false, "Extreme GC content (should be 30-70%)")
  else if containsSub (List.replicate 6 'A') u then
    (false, "Long homopolymer detected: AAAAAA")
  else if containsSub (List.replicate 6 'C') u then
    (false, "Long homopolymer detected: CCCCCC")
  else if containsSub (List.replicate 6 'G') u then
    (false, "Long homopolymer detected: GGGGGG")
  else if containsSub (List.replicate 6 'U') u then
    (false, "Long homopolymer detected: UUUUUU")
  else if containsSub (repConcat (length / 2 + 1) (u.take 2)) (u ++ u) then
    (false, "Simple repeat detected: " ++ String.mk (u.take 2))
  else if containsSub (repConcat (length / 3 + 1) (u.take 3)) (u ++ u) then
    (false, "Simple repeat detected: " ++ String.mk (u.take 3))
  else if containsSub (repConcat (length / 4 + 1) (u.take 4)) (u ++ u) then
    (false, "Simple repeat detected: " ++ String.mk (u.take 4))
  else if containsSub (repConcat (length / 5 + 1) (u.take 5)) (u ++ u) then
    (false, "Simple repeat detected: " ++ String.mk (u.take 5))
  else
    (true, "Sequence passed validation")

/-- A vocabulary distribution certain of base i (the discrete limit the
claims about certainty tensors speak of). -/
def oneHot (V i : ℕ) : List ℝ :=
  (List.range V).map fun j => if j = i then 1 else 0

/-- An all-zero logits tensor: softmax turns every position uniform. -/
def zerosT (b L V : ℕ) : Tensor3 :=
  List.replicate b (List.replicate L (List.replicate V 0))

/-- A probability tensor certain of the same base at every position. -/
def onehotT (b L V i : ℕ) : Tensor3 :=
  List.replicate b (List.replicate L (oneHot V i))

/-- Strict alternation of the two complementary bases A (index 24) and
U (index 27), each position certain, length 5, batch 1. -/
def altT : Tensor3 :=
  [[oneHot 33 24, oneHot 33 27, oneHot 33 24, oneHot 33 27, oneHot 33 24]]

/-- Certainty of base A at all 5 positions: a homopolymer run of length 5. -/
def constT : Tensor3 :=
  [[oneHot 33 24, oneHot 33 24, oneHot 33 24, oneHot 33 24, oneHot 33 24]]

end

/-! ## Helper lemmas -/

section Helpers

lemma rmean_nil : rmean [] = none := rfl

lemma rmean_of_ne_nil {l : List ℝ} (h : l ≠ []) :
    rmean l = some (l.sum / l.length) := by
  simp [rmean, h]

lemma rmean_replicate {n : ℕ} (hn : 0 < n) (x : ℝ) :
    rmean (List.replicate n x) = some x := by
  have hne : List.replicate n x ≠ [] := by
    simp [List.replicate_eq_nil_iff]
    omega
  rw [rmean_of_ne_nil hne]
  rw [List.sum_replicate, List.length_replicate, nsmul_eq_mul]
  congr 1
  have hn0 : (n : ℝ) ≠ 0 := by exact_mod_cast hn.ne'
  field_simp

lemma sum_map_div (l : List ℝ) (c : ℝ) :
    (l.map (fun x => x / c)).sum = l.sum / c := by
  induction l with
  | nil => simp
  | cons a t ih => simp [ih, add_div]

lemma sum_map_mul_const (l : List α) (f : α → ℝ) (c : ℝ) :
    (l.map (fun x => f x * c)).sum = (l.map f).sum * c := by
  induction l with
  | nil => simp
  | cons a t ih => simp [ih, add_mul]

lemma calculate_gc_content_eq (s : String) :
    calculate_gc_content s =
      if (upChars s).length = 0 then 0
      else ((((upChars s).count 'G' + (upChars s).count 'C' : ℕ) : ℚ) /
        ((upChars s).length : ℚ)) := by
  unfold calculate_gc_content
  rcases Nat.eq_zero_or_pos (upChars s).length with h | h
  · simp [h]
  · simp [h, Nat.pos_iff_ne_zero.mp h]

end Helpers

/-! ## Claim C9: calculate_gc_content -/

/-- Claim C9: calculate_gc_content returns the count of G/C characters
(case-insensitively) divided by the length, 0 for the empty string, with the
three concrete values from the spec and a lowercase probe. -/
theorem calculate_gc_content_spec :
    (∀ s : String, calculate_gc_content s =
      if (upChars s).length = 0 then 0
      else ((((upChars s).count 'G' + (upChars s).count 'C' : ℕ) : ℚ) / ((upChars s).length : ℚ))) ∧
    calculate_gc_content "GCGC" = 1 ∧
    calculate_gc_content "ATAT" = 0 ∧
    calculate_gc_content "" = 0 ∧
    calculate_gc_content "gcgc" = 1 := by
  have hG : (upChars "GCGC").count 'G' = 2 := by decide
  have hC : (upChars "GCGC").count 'C' = 2 := by decide
  have hL : (upChars "GCGC").length = 4 := by decide
  have hG2 : (upChars "ATAT").count 'G' = 0 := by decide
  have hC2 : (upChars "ATAT").count 'C' = 0 := by decide
  have hL2 : (upChars "ATAT").length = 4 := by decide
  have hG3 : (upChars "gcgc").count 'G' = 2 := by decide
  have hC3 : (upChars "gcgc").count 'C' = 2 := by decide
  have hL3 : (upChars "gcgc").length = 4 := by decide
  refine ⟨fun s => calculate_gc_content_eq s, ?_, ?_, ?_, ?_⟩
  · rw [calculate_gc_content_eq, hG, hC, hL]; norm_num
  · rw [calculate_gc_content_eq, hG2, hC2, hL2]; norm_num
  · have hL0 : (upChars "").length = 0 := by decide
    rw [calculate_gc_content_eq, if_pos hL0]
  · rw [calculate_gc_content_eq, hG3, hC3, hL3]; norm_num

/-! ## Claim C7: the softmax produces probability distributions -/

/-- Claim C7: each vocabulary slice of the softmax the losses apply has the
same length as its input, only non-negative entries, and (for a non-empty
vocabulary) sums exactly to 1; the function is total on all real inputs. -/
theorem softmax1_prob_distribution (v : List ℝ) :
    (softmax1 v).length = v.length ∧
    (∀ x ∈ softmax1 v, 0 ≤ x) ∧
    (v ≠ [] → (softmax1 v).sum = 1) := by
  refine ⟨by simp [softmax1], ?_, ?_⟩
  · intro x hx
    simp only [softmax1, List.mem_map] at hx
    obtain ⟨a, _, rfl⟩ := hx
    apply div_nonneg (Real.exp_pos a).le
    exact List.sum_nonneg fun y hy => by
      obtain ⟨z, _, rfl⟩ := List.mem_map.mp hy
      exact (Real.exp_pos z).le
  · intro hv
    have hS : 0 < (v.map Real.exp).sum := by
      apply List.sum_pos
      · intro x hx
        obtain ⟨z, _, rfl⟩ := List.mem_map.mp hx
        exact Real.exp_pos z
      · simpa using hv
    have : softmax1 v = (v.map Real.exp).map (fun y => y / (v.map Real.exp).sum) := by
      simp [softmax1, List.map_map, Function.comp]
    rw [this, sum_map_div, div_self hS.ne']

/-- Witness for C7 at the concrete slice [0, 0]. -/
theorem softmax1_prob_distribution_witness : (softmax1 [(0 : ℝ), 0]).sum = 1 :=
  (softmax1_prob_distribution [(0 : ℝ), 0]).2.2 (by simp)

/-! ## Claim C1: validate_aptamer_sequence on "ACGUACGUACGUACGUACGU" -/

/-- Helper: the GC fraction of the period-4 test sequence is exactly 1/2. -/
lemma gc_acgu5 : calculate_gc_content "ACGUACGUACGUACGUACGU" = 1 / 2 := by
  have hG : (upChars "ACGUACGUACGUACGUACGU").count 'G' = 5 := by decide
  have hC : (upChars "ACGUACGUACGUACGUACGU").count 'C' = 5 := by decide
  have hL : (upChars "ACGUACGUACGUACGUACGU").length = 20 := by decide
  rw [calculate_gc_content_eq, hG, hC, hL]
  norm_num

/-- Claim C1 counterexample: the spec example sequence does NOT pass
validation: the first component of the result is false, not true. -/
theorem validate_acgu5_not_valid :
    (validate_aptamer_sequence "ACGUACGUACGUACGUACGU" 20 100).1 = false := by
  unfold validate_aptamer_sequence
  rw [gc_acgu5]
  norm_num
  decide

/-- Claim C1 (amended): the sequence "ACGUACGUACGUACGUACGU" is a period-4
tandem repeat spanning the whole string, so validate_aptamer_sequence passes
the length, alphabet, GC-content and homopolymer checks but fails the simple
repeat check at period 4, returning false with the message naming the repeat
unit "ACGU". -/
theorem validate_acgu5_simple_repeat :
    validate_aptamer_sequence "ACGUACGUACGUACGUACGU" 20 100 =
      (false, "Simple repeat detected: ACGU") := by
  unfold validate_aptamer_sequence
  rw [gc_acgu5]
  norm_num
  decide

/-! ## Claim C3: calculate_tm below length 14 -/

/-- Claim C3 counterexample: at the spec's own example (length 12, defaults
na_conc = 50, mg_conc = 2) calculate_tm does NOT return the bare Wallace
value 2*(A+T+U) + 4*(G+C) = 36: the magnesium correction is applied outside
the length branch, so 2*log10(2) is added as well. -/
theorem calculate_tm_wallace_counterexample :
    calculate_tm "ACGTACGTACGT" 50 2 ≠ 36 := by
  have hA : (upChars "ACGTACGTACGT").count 'A' = 3 := by decide
  have hT : (upChars "ACGTACGTACGT").count 'T' = 3 := by decide
  have hU : (upChars "ACGTACGTACGT").count 'U' = 0 := by decide
  have hG : (upChars "ACGTACGTACGT").count 'G' = 3 := by decide
  have hC : (upChars "ACGTACGTACGT").count 'C' = 3 := by decide
  have hL : (upChars "ACGTACGTACGT").length = 12 := by decide
  have hlog : 0 < Real.logb 10 2 := Real.logb_pos (by norm_num) (by norm_num)
  unfold calculate_tm tmBase
  rw [if_pos (by norm_num : (0 : ℝ) < 2), if_pos (by rw [hL]; norm_num), hA, hT, hU, hG, hC]
  norm_num


/-- Claim C3 (amended): for every sequence shorter than 14 bases, calculate_tm
with the default concentrations (na_conc = 50, mg_conc = 2) returns the
Wallace value 2*(A+T+U) + 4*(G+C) PLUS the magnesium correction 2*log10(2)
(the correction is applied unconditionally whenever mg_conc > 0); the result
is still deterministic and computable by hand from the base counts. -/
theorem calculate_tm_short_wallace (s : String)
    (h : (upChars s).length < 14) :
    calculate_tm s 50 2 =
      2 * (((upChars s).count 'A' : ℝ) + ((upChars s).count 'T' : ℝ) +
        ((upChars s).count 'U' : ℝ)) +
      4 * (((upChars s).count 'G' : ℝ) + ((upChars s).count 'C' : ℝ)) +
      Real.logb 10 2 * 2 := by
  unfold calculate_tm tmBase
  rw [if_pos (by norm_num : (0 : ℝ) < 2), if_pos h]

/-- Witness for C3 at the spec's example string of length 12. -/
theorem calculate_tm_short_wallace_witness :
    calculate_tm "ACGTACGTACGT" 50 2 = 36 + Real.logb 10 2 * 2 := by
  have h := calculate_tm_short_wallace "ACGTACGTACGT" (by decide)
  rw [h]
  have hA : (upChars "ACGTACGTACGT").count 'A' = 3 := by decide
  have hT : (upChars "ACGTACGTACGT").count 'T' = 3 := by decide
  have hU : (upChars "ACGTACGTACGT").count 'U' = 0 := by decide
  have hG : (upChars "ACGTACGTACGT").count 'G' = 3 := by decide
  have hC : (upChars "ACGTACGTACGT").count 'C' = 3 := by decide
  rw [hA, hT, hU, hG, hC]
  norm_num

/-! ## Claim C5: the aggregator's breakdown is internally consistent -/

/-- Claim C5: for every logits tensor, target GC fraction, structure type and
weight configuration, whenever aptamer_design_loss returns a result, the
breakdown's total_aptamer_loss entry equals the returned scalar total, which
equals the (NaN-propagating) sum of the four listed per-term entries. -/
theorem aptamer_design_loss_breakdown_consistent (t : Tensor3) (tg : ℝ)
    (st : Option String) (w : List (String × ℝ)) :
    breakdownConsistent (aptamer_design_loss t tg st w) := by
  unfold aptamer_design_loss
  cases hg : wlookup w "gc_content" with
  | none => exact trivial
  | some wg =>
    cases hc : wlookup w "complexity" with
    | none => exact trivial
    | some wc =>
      cases hh : wlookup w "homopolymer" with
      | none => exact trivial
      | some wh =>
        cases hst : strTruthy st with
        | false =>
          simp only [Bool.false_eq_true, if_false]
          exact ⟨rfl, rfl⟩
        | true =>
          simp only [if_true]
          cases hs : wlookup w "structure" with
          | none => exact trivial
          | some ws => exact ⟨rfl, rfl⟩

/-! ## Claim C6: missing weight keys fail fast, named; no structure key
needed when no structure type is requested -/

/-- Claim C6: a missing weight key for a requested term makes
aptamer_design_loss fail with an error naming exactly that key (the checks
happen in the source's order, so the first missing requested key is the one
named), and when the structure type is not given (falsy), a missing
"structure" key does not cause a failure. -/
theorem aptamer_design_loss_missing_weight (t : Tensor3) (tg : ℝ)
    (st : Option String) (w : List (String × ℝ)) :
    (wlookup w "gc_content" = none →
      aptamer_design_loss t tg st w = Except.error "gc_content") ∧
    ((wlookup w "gc_content").isSome = true → wlookup w "complexity" = none →
      aptamer_design_loss t tg st w = Except.error "complexity") ∧
    ((wlookup w "gc_content").isSome = true →
      (wlookup w "complexity").isSome = true →
      wlookup w "homopolymer" = none →
      aptamer_design_loss t tg st w = Except.error "homopolymer") ∧
    ((wlookup w "gc_content").isSome = true →
      (wlookup w "complexity").isSome = true →
      (wlookup w "homopolymer").isSome = true →
      strTruthy st = true → wlookup w "structure" = none →
      aptamer_design_loss t tg st w = Except.error "structure") ∧
    ((wlookup w "gc_content").isSome = true →
      (wlookup w "complexity").isSome = true →
      (wlookup w "homopolymer").isSome = true →
      strTruthy st = false →
      isOkE (aptamer_design_loss t tg st w) = true) := by
  refine ⟨?_, ?_, ?_, ?_, ?_⟩
  · intro hg
    unfold aptamer_design_loss
    rw [hg]
  · intro hg hc
    obtain ⟨wg, hg⟩ := Option.isSome_iff_exists.mp hg
    unfold aptamer_design_loss
    rw [hg, hc]
  · intro hg hc hh
    obtain ⟨wg, hg⟩ := Option.isSome_iff_exists.mp hg
    obtain ⟨wc, hc⟩ := Option.isSome_iff_exists.mp hc
    unfold aptamer_design_loss
    rw [hg, hc, hh]
  · intro hg hc hh hst hs
    obtain ⟨wg, hg⟩ := Option.isSome_iff_exists.mp hg
    obtain ⟨wc, hc⟩ := Option.isSome_iff_exists.mp hc
    obtain ⟨wh, hh⟩ := Option.isSome_iff_exists.mp hh
    unfold aptamer_design_loss
    rw [hg, hc, hh]
    simp only [hst, hs]
    rfl
  · intro hg hc hh hst
    obtain ⟨wg, hg⟩ := Option.isSome_iff_exists.mp hg
    obtain ⟨wc, hc⟩ := Option.isSome_iff_exists.mp hc
    obtain ⟨wh, hh⟩ := Option.isSome_iff_exists.mp hh
    unfold aptamer_design_loss
    rw [hg, hc, hh, hst]
    rfl

/-- Witness for C6: the empty weight configuration fails naming
"gc_content", the first requested term. -/
theorem aptamer_design_loss_missing_weight_witness :
    aptamer_design_loss [] (1 / 2) none [] = Except.error "gc_content" :=
  (aptamer_design_loss_missing_weight [] (1 / 2) none []).1 rfl

/-! ## Claim C2: hairpin structure loss on sequences shorter than 3 -/

/-- Helper: an einsum row whose first operand is empty yields either an empty
result (lengths 0 and 0, or 0 broadcast against 1) or a raised shape
mismatch. -/
lemma einsumRow_nil (b : List (List ℝ)) :
    einsumRow [] b = none ∨ einsumRow [] b = some [] := by
  rcases b with _ | ⟨x, _ | ⟨y, t⟩⟩ <;> simp [einsumRow]

/-- Helper: flattening a list of empty lists gives the empty list. -/
lemma flatten_all_nil {ls : List (List ℝ)} (h : ∀ l ∈ ls, l = []) :
    ls.flatten = [] := by
  induction ls with
  | nil => rfl
  | cons a rest ih =>
    rw [List.flatten_cons, h a (List.mem_cons_self a rest),
      ih fun l hl => h l (List.mem_cons_of_mem a hl)]
    rfl

/-- Helper: mapping einsumRow over batch pairs whose first components are all
empty gives either an error or a list of empty rows. -/
lemma omapM_einsumRow_nil :
    ∀ L : List (List (List ℝ) × List (List ℝ)), (∀ p ∈ L, p.1 = []) →
      omapM (fun ab => einsumRow ab.1 ab.2) L = none ∨
      ∃ ls, omapM (fun ab => einsumRow ab.1 ab.2) L = some ls ∧
        ∀ l ∈ ls, l = ([] : List ℝ) := by
  intro L
  induction L with
  | nil => intro _; exact Or.inr ⟨[], rfl, by simp⟩
  | cons p rest ih =>
    intro h
    have hp : p.1 = [] := h p (List.mem_cons_self p rest)
    have hrest := ih fun q hq => h q (List.mem_cons_of_mem p hq)
    rcases einsumRow_nil p.2 with he | he
    · left
      simp only [omapM, hp, he]
    · rcases hrest with hr | ⟨ls, hr, hls⟩
      · left
        simp only [omapM, hp, he, hr]
      · right
        refine ⟨[] :: ls, ?_, ?_⟩
        · simp only [omapM, hp, he, hr]
        · intro l hl
          rcases List.mem_cons.mp hl with h1 | h1
          · exact h1
          · exact hls l h1

/-- Helper: the softmax preserves the sequence length (shape[1]). -/
lemma seqLen_softmaxT (t : Tensor3) : seqLen (softmaxT t) = seqLen t := by
  cases t with
  | nil => rfl
  | cons row rest => simp [softmaxT, seqLen]

/-- Claim C2: for every logits tensor whose sequence length is less than 3,
the hairpin stem length is 0, so the 5-prime stem slice is empty while the
3-prime slice probs[:, -0:, :] is the whole tensor; the einsum either raises
a shape mismatch (length 2) or produces an empty tensor whose mean is NaN
(length 0 or 1). The loss is therefore never the real number 0 the spec
requires: the model returns none (no real result) in every case. -/
theorem hairpin_loss_short_seq_nan (t : Tensor3) (w : ℝ)
    (h : seqLen t < 3) :
    aptamer_structure_loss t "hairpin" w = none := by
  unfold aptamer_structure_loss aptamer_structure_loss_probs
  have hstem : min 6 (seqLen (softmaxT t) / 3) = 0 := by
    rw [seqLen_softmaxT]
    omega
  simp only [if_pos rfl, hstem]
  have htake : (softmaxT t).map (fun row => row.take 0) =
      (softmaxT t).map fun _ => ([] : List (List ℝ)) := by
    simp
  rw [htake]
  have hfst : ∀ p ∈ List.zip ((softmaxT t).map fun _ => ([] : List (List ℝ)))
      ((softmaxT t).map fun row => (pyTail 0 row).reverse), p.1 = [] := by
    intro p hp
    have := List.of_mem_zip hp
    rcases this with ⟨h1, _⟩
    rcases List.mem_map.mp h1 with ⟨q, _, hq⟩
    exact hq.symm
  rcases omapM_einsumRow_nil _ hfst with he | ⟨ls, he, hls⟩
  · rw [einsumRows, he]
    rfl
  · rw [einsumRows, he]
    simp [flatten_all_nil hls, rmean]

/-- Witness for C2 at a concrete length-1 logits tensor. -/
theorem hairpin_loss_short_seq_nan_witness :
    aptamer_structure_loss [[[(0 : ℝ), 0]]] "hairpin" (3 / 20) = none :=
  hairpin_loss_short_seq_nan [[[(0 : ℝ), 0]]] (3 / 20) (by norm_num [seqLen])

/-! ## Claim C10: uniform logit shifts leave every loss unchanged -/

/-- Helper: the softmax of a slice is invariant under adding a constant to
every entry. -/
lemma softmax1_shift (v : List ℝ) (c : ℝ) :
    softmax1 (v.map fun x => x + c) = softmax1 v := by
  unfold softmax1
  have hsum : ((v.map (fun x => x + c)).map Real.exp).sum =
      (v.map Real.exp).sum * Real.exp c := by
    rw [List.map_map]
    have : (Real.exp ∘ fun x => x + c) = fun x => Real.exp x * Real.exp c := by
      funext x
      simp [Real.exp_add]
    rw [this, sum_map_mul_const]
  rw [hsum, List.map_map]
  have : ((fun x => Real.exp x / ((v.map Real.exp).sum * Real.exp c)) ∘
      fun x => x + c) = fun x => Real.exp x / (v.map Real.exp).sum := by
    funext x
    simp only [Function.comp]
    rw [Real.exp_add, mul_comm ((v.map Real.exp).sum) (Real.exp c), mul_comm (Real.exp x) (Real.exp c)]
    rw [mul_div_mul_left _ _ (Real.exp_ne_zero c)]
  rw [this]

/-- Helper: the tensor-level softmax is invariant under a uniform shift. -/
lemma softmaxT_shift (t : Tensor3) (c : ℝ) :
    softmaxT (shiftT c t) = softmaxT t := by
  unfold softmaxT shiftT
  rw [List.map_map]
  apply List.map_congr_left
  intro row _
  simp only [Function.comp]
  rw [List.map_map]
  apply List.map_congr_left
  intro p _
  exact softmax1_shift p c

/-- Claim C10: adding the same constant to every vocabulary entry of every
position changes none of the four differentiable losses, because each first
converts the logits with the softmax. -/
theorem loss_shift_invariance (t : Tensor3) (c target_gc w1 w2 : ℝ)
    (max_run : ℕ) (w3 : ℝ) (structure_type : String) (w4 : ℝ) :
    gc_content_loss (shiftT c t) target_gc w1 = gc_content_loss t target_gc w1 ∧
    sequence_complexity_loss (shiftT c t) w2 = sequence_complexity_loss t w2 ∧
    homopolymer_penalty (shiftT c t) max_run w3 = homopolymer_penalty t max_run w3 ∧
    aptamer_structure_loss (shiftT c t) structure_type w4 =
      aptamer_structure_loss t structure_type w4 := by
  refine ⟨?_, ?_, ?_, ?_⟩
  · unfold gc_content_loss
    rw [softmaxT_shift]
  · unfold sequence_complexity_loss
    rw [softmaxT_shift]
  · unfold homopolymer_penalty
    rw [softmaxT_shift]
  · unfold aptamer_structure_loss
    rw [softmaxT_shift]

/-! ## Claim C4: homopolymer penalty on alternation and on constant runs -/

/-- Helper: zipWith of multiplication over two maps of the same index list. -/
lemma zipWith_mul_map (l : List ℕ) (f g : ℕ → ℝ) :
    List.zipWith (fun x y => x * y) (l.map f) (l.map g) =
      l.map fun x => f x * g x := by
  induction l with
  | nil => rfl
  | cons a t ih => simp [ih]

/-- Helper: summing an indicator of a single index over range V. -/
lemma sum_map_range_delta (V i : ℕ) (hi : i < V) (r : ℝ) :
    ((List.range V).map fun j => if j = i then r else 0).sum = r := by
  induction V with
  | zero => omega
  | succ n ih =>
    rw [List.range_succ, List.map_append, List.sum_append]
    rcases Nat.lt_succ_iff_lt_or_eq.mp hi with h | h
    · rw [ih h]
      have : n ≠ i := Nat.ne_of_gt h
      simp [this]
    · subst h
      have hz : ((List.range i).map fun j => if j = i then r else 0) =
          (List.range i).map fun _ => (0 : ℝ) := by
        apply List.map_congr_left
        intro j hj
        simp [Nat.ne_of_lt (List.mem_range.mp hj)]
      rw [hz]
      simp

/-- Helper: the inner product of a one-hot distribution with itself is 1. -/
lemma dotP_oneHot_same {V i : ℕ} (hi : i < V) :
    dotP (oneHot V i) (oneHot V i) = 1 := by
  unfold dotP oneHot
  rw [zipWith_mul_map]
  have hsq : ((List.range V).map fun j =>
      (if j = i then (1 : ℝ) else 0) * (if j = i then (1 : ℝ) else 0)) =
      (List.range V).map fun j => if j = i then (1 : ℝ) else 0 := by
    apply List.map_congr_left
    intro j _
    by_cases h : j = i <;> simp [h]
  rw [hsq, sum_map_range_delta V i hi]

/-- Helper: the inner product of one-hot distributions of distinct bases is 0. -/
lemma dotP_oneHot_ne {V i k : ℕ} (hik : i ≠ k) :
    dotP (oneHot V i) (oneHot V k) = 0 := by
  unfold dotP oneHot
  rw [zipWith_mul_map]
  have hz : ((List.range V).map fun j =>
      (if j = i then (1 : ℝ) else 0) * (if j = k then (1 : ℝ) else 0)) =
      (List.range V).map fun _ => (0 : ℝ) := by
    apply List.map_congr_left
    intro j _
    by_cases h1 : j = i
    · subst h1
      simp [hik]
    · simp [h1]
  rw [hz]
  simp

/-- Helper: offset diagonals of a length-5 batch item, by kernel reduction. -/
lemma diagVals_five_1 (a b c d e : List ℝ) :
    diagVals [a, b, c, d, e] 1 = [dotP a b, dotP b c, dotP c d, dotP d e] := rfl

/-- Helper: offset-2 diagonal of a length-5 batch item. -/
lemma diagVals_five_2 (a b c d e : List ℝ) :
    diagVals [a, b, c, d, e] 2 = [dotP a c, dotP b d, dotP c e] := rfl

/-- Helper: offset-3 diagonal of a length-5 batch item. -/
lemma diagVals_five_3 (a b c d e : List ℝ) :
    diagVals [a, b, c, d, e] 3 = [dotP a d, dotP b e] := rfl

/-- Helper: offset-4 diagonal of a length-5 batch item. -/
lemma diagVals_five_4 (a b c d e : List ℝ) :
    diagVals [a, b, c, d, e] 4 = [dotP a e] := rfl

/-- Helper: the penalty on the alternating A/U certainty tensor with the
source defaults max_run = 4, weight = 0.3: the odd-offset diagonals vanish
but the offset-2 and offset-4 diagonals are all 1, giving
0.3 * (1 * 2/4 + 1 * 4/4) = 9/20. -/
lemma homopolymer_altT_value :
    homopolymer_penalty_probs altT 4 (3 / 10) = some (9 / 20) := by
  have hAA : dotP (oneHot 33 24) (oneHot 33 24) = 1 := dotP_oneHot_same (by norm_num)
  have hUU : dotP (oneHot 33 27) (oneHot 33 27) = 1 := dotP_oneHot_same (by norm_num)
  have hAU : dotP (oneHot 33 24) (oneHot 33 27) = 0 := dotP_oneHot_ne (by norm_num)
  have hUA : dotP (oneHot 33 27) (oneHot 33 24) = 0 := dotP_oneHot_ne (by norm_num)
  have hlen : seqLen altT = 5 := by simp [altT, seqLen]
  have hoffs : (List.range (min (4 + 1) 5)).drop 1 = [1, 2, 3, 4] := by decide
  have hm1 : rmean [(0 : ℝ), 0, 0, 0] = some 0 := by
    rw [rmean_of_ne_nil (by simp)]
    norm_num
  have hm2 : rmean [(1 : ℝ), 1, 1] = some 1 := by
    rw [rmean_of_ne_nil (by simp)]
    norm_num
  have hm3 : rmean [(0 : ℝ), 0] = some 0 := by
    rw [rmean_of_ne_nil (by simp)]
    norm_num
  have hm4 : rmean [(1 : ℝ)] = some 1 := by
    rw [rmean_of_ne_nil (by simp)]
    norm_num
  unfold homopolymer_penalty_probs
  rw [hlen, hoffs]
  simp only [altT, List.map_cons, List.map_nil, List.flatten_cons,
    List.flatten_nil, List.append_nil, diagVals_five_1, diagVals_five_2,
    diagVals_five_3, diagVals_five_4, hAA, hUU, hAU, hUA, hm1, hm2, hm3, hm4,
    omapM, Option.map_some']
  norm_num

/-- Helper: the penalty on the constant-A certainty tensor (a run of 5, at
least max_run = 4): every diagonal entry is 1, giving
0.3 * (1/4 + 2/4 + 3/4 + 4/4) = 3/4. -/
lemma homopolymer_constT_value :
    homopolymer_penalty_probs constT 4 (3 / 10) = some (3 / 4) := by
  have hAA : dotP (oneHot 33 24) (oneHot 33 24) = 1 := dotP_oneHot_same (by norm_num)
  have hlen : seqLen constT = 5 := by simp [constT, seqLen]
  have hoffs : (List.range (min (4 + 1) 5)).drop 1 = [1, 2, 3, 4] := by decide
  have hm1 : rmean [(1 : ℝ), 1, 1, 1] = some 1 := by
    rw [rmean_of_ne_nil (by simp)]
    norm_num
  have hm2 : rmean [(1 : ℝ), 1, 1] = some 1 := by
    rw [rmean_of_ne_nil (by simp)]
    norm_num
  have hm3 : rmean [(1 : ℝ), 1] = some 1 := by
    rw [rmean_of_ne_nil (by simp)]
    norm_num
  have hm4 : rmean [(1 : ℝ)] = some 1 := by
    rw [rmean_of_ne_nil (by simp)]
    norm_num
  unfold homopolymer_penalty_probs
  rw [hlen, hoffs]
  simp only [constT, List.map_cons, List.map_nil, List.flatten_cons,
    List.flatten_nil, List.append_nil, diagVals_five_1, diagVals_five_2,
    diagVals_five_3, diagVals_five_4, hAA, hm1, hm2, hm3, hm4,
    omapM, Option.map_some']
  norm_num

/-- Claim C4 counterexample: on the certainty tensor that strictly alternates
the complementary bases A and U, homopolymer_penalty is NOT 0 (it is 9/20
with the default max_run and weight): pairwise similarity at even offsets
fires even though no run exceeds length 1. -/
theorem homopolymer_alternation_counterexample :
    ¬ homopolymer_penalty_probs altT 4 (3 / 10) = some 0 := by
  rw [homopolymer_altT_value]
  intro h
  have := Option.some.inj h
  norm_num at this

/-- Claim C4 (amended): on the strictly alternating A/U certainty tensor the
homopolymer penalty is strictly positive (9/20, not 0, because the offset-2
and offset-4 diagonals of the similarity matrix detect the period-2 repeat),
and on a tensor with certainty of one base along a run of length 5 >= max_run
it is strictly positive as well (3/4). -/
theorem homopolymer_alternation_and_run_positive :
    (homopolymer_penalty_probs altT 4 (3 / 10) = some (9 / 20) ∧ (0 : ℝ) < 9 / 20) ∧
    (homopolymer_penalty_probs constT 4 (3 / 10) = some (3 / 4) ∧ (0 : ℝ) < 3 / 4) :=
  ⟨⟨homopolymer_altT_value, by norm_num⟩, ⟨homopolymer_constT_value, by norm_num⟩⟩

/-! ## Claim C8: complexity loss at the uniform and fully peaked extremes -/

/-- Helper: head of a non-empty replicate. -/
lemma headD_replicate {α : Type} {n : ℕ} (hn : 0 < n) (x d : α) :
    (List.replicate n x).headD d = x := by
  cases n with
  | zero => omega
  | succ k => rfl

/-- Helper: flattening a replicated replicate. -/
lemma flatten_replicate {α : Type} (n m : ℕ) (x : α) :
    (List.replicate n (List.replicate m x)).flatten = List.replicate (n * m) x := by
  induction n with
  | zero => simp
  | succ k ih =>
    rw [List.replicate_succ, List.flatten_cons, ih, ← List.replicate_add]
    congr 1
    ring

/-- Helper: the softmax of an all-zero slice is the uniform distribution. -/
lemma softmax1_replicate_zero (V : ℕ) :
    softmax1 (List.replicate V (0 : ℝ)) = List.replicate V (1 / (V : ℝ)) := by
  unfold softmax1
  simp [List.map_replicate, Real.exp_zero, List.sum_replicate, nsmul_eq_mul]

/-- Helper: the softmax of the all-zero tensor is uniform everywhere. -/
lemma zerosT_softmax (b L V : ℕ) :
    softmaxT (zerosT b L V) =
      List.replicate b (List.replicate L (List.replicate V (1 / (V : ℝ)))) := by
  unfold softmaxT zerosT
  simp only [List.map_replicate]
  rw [softmax1_replicate_zero]

/-- Helper: the complexity loss on a tensor whose every position holds the
same distribution p. -/
lemma complexity_probs_replicate (b L : ℕ) (p : List ℝ) (w : ℝ)
    (hb : 0 < b) (hL : 0 < L) :
    sequence_complexity_loss_probs (List.replicate b (List.replicate L p)) w =
      some (w * (1 - entropy1 p / Real.log (p.length : ℝ))) := by
  unfold sequence_complexity_loss_probs
  simp only [List.map_replicate]
  rw [flatten_replicate, rmean_replicate (Nat.mul_pos hb hL)]
  have hv : vocabSize (List.replicate b (List.replicate L p)) = p.length := by
    unfold vocabSize
    rw [headD_replicate hb, headD_replicate hL]
  simp only [hv]
  rfl

/-- Helper: the entropy of the uniform distribution, epsilon included. -/
lemma entropy1_uniform (V : ℕ) (hV : 0 < V) :
    entropy1 (List.replicate V ((1 : ℝ) / V)) =
      -(Real.log (1 / (V : ℝ) + 1 / 10 ^ 10)) := by
  unfold entropy1
  rw [List.map_replicate, List.sum_replicate, nsmul_eq_mul]
  congr 1
  rw [← mul_assoc, mul_one_div, div_self (by exact_mod_cast hV.ne' : (V : ℝ) ≠ 0), one_mul]

/-- Helper: the entropy of a one-hot distribution, epsilon included (the
0 * log(0 + eps) terms vanish exactly). -/
lemma entropy1_oneHot {V i : ℕ} (hi : i < V) :
    entropy1 (oneHot V i) = -(Real.log (1 + 1 / 10 ^ 10)) := by
  unfold entropy1 oneHot
  rw [List.map_map]
  have hmap : ((List.range V).map ((fun x => x * Real.log (x + 1 / 10 ^ 10)) ∘
      fun j => if j = i then (1 : ℝ) else 0)) =
      (List.range V).map fun j => if j = i then Real.log (1 + 1 / 10 ^ 10) else 0 := by
    apply List.map_congr_left
    intro j _
    by_cases h : j = i <;> simp [h]
  rw [hmap, sum_map_range_delta V i hi]

/-- Claim C8: on all-zero logits (uniform distribution at every position) the
complexity loss equals w * log(1 + V*1e-10)/log V, which is strictly positive
but at most w * V/1e9 (0 up to the epsilon the source adds inside the log);
on a tensor fully peaked on one base at every position the loss equals
w * (1 + log(1 + 1e-10)/log V), within w/1e9 of its maximum value w * 1. -/
theorem sequence_complexity_uniform_and_peaked (b L V i : ℕ) (w : ℝ)
    (hb : 0 < b) (hL : 0 < L) (hV : 2 ≤ V) (hi : i < V) (hw : 0 < w) :
    (sequence_complexity_loss (zerosT b L V) w =
        some (w * (Real.log (1 + (V : ℝ) / 10 ^ 10) / Real.log V)) ∧
      0 < w * (Real.log (1 + (V : ℝ) / 10 ^ 10) / Real.log V) ∧
      w * (Real.log (1 + (V : ℝ) / 10 ^ 10) / Real.log V) ≤ w * ((V : ℝ) / 10 ^ 9)) ∧
    (sequence_complexity_loss_probs (onehotT b L V i) w =
        some (w * (1 + Real.log (1 + 1 / 10 ^ 10) / Real.log V)) ∧
      |w * (1 + Real.log (1 + 1 / 10 ^ 10) / Real.log V) - w| ≤ w * (1 / 10 ^ 9)) := by
  have hV0 : (0 : ℝ) < V := by exact_mod_cast (by omega : 0 < V)
  have hV1 : (1 : ℝ) < V := by exact_mod_cast (by omega : 1 < V)
  have hlogV : 0 < Real.log V := Real.log_pos hV1
  have hlog2 : (0.6931471803 : ℝ) < Real.log 2 := Real.log_two_gt_d9
  have hVle : Real.log 2 ≤ Real.log V := by
    apply Real.log_le_log (by norm_num)
    exact_mod_cast hV
  have hnum : (0 : ℝ) < 1 + (V : ℝ) / 10 ^ 10 := by positivity
  constructor
  · have hform : sequence_complexity_loss (zerosT b L V) w =
        some (w * (1 - (-(Real.log (1 / (V : ℝ) + 1 / 10 ^ 10))) /
          Real.log (((List.replicate V ((1 : ℝ) / V)).length : ℝ)))) := by
      unfold sequence_complexity_loss
      rw [zerosT_softmax, complexity_probs_replicate b L _ w hb hL,
        entropy1_uniform V (by omega)]
    rw [List.length_replicate] at hform
    have harg : (1 : ℝ) / V + 1 / 10 ^ 10 = (1 + (V : ℝ) / 10 ^ 10) / V := by
      rw [add_div]
      congr 1
      rw [div_div, mul_comm, ← div_div, div_self hV0.ne']
    have hval : (1 : ℝ) - (-(Real.log (1 / (V : ℝ) + 1 / 10 ^ 10))) / Real.log V =
        Real.log (1 + (V : ℝ) / 10 ^ 10) / Real.log V := by
      rw [harg, Real.log_div hnum.ne' hV0.ne']
      field_simp
    have hpos : (0 : ℝ) < (V : ℝ) / 10 ^ 10 := by positivity
    have hlognum : 0 < Real.log (1 + (V : ℝ) / 10 ^ 10) :=
      Real.log_pos (by linarith)
    refine ⟨?_, ?_, ?_⟩
    · rw [hform, hval]
    · exact mul_pos hw (div_pos hlognum hlogV)
    · have hA : Real.log (1 + (V : ℝ) / 10 ^ 10) ≤ (V : ℝ) / 10 ^ 10 := by
        have := Real.log_le_sub_one_of_pos hnum
        linarith
      have h1 : Real.log (1 + (V : ℝ) / 10 ^ 10) / Real.log V ≤
          ((V : ℝ) / 10 ^ 10) / Real.log 2 :=
        div_le_div (by positivity) hA (by linarith) hVle
      have h2 : ((V : ℝ) / 10 ^ 10) / Real.log 2 ≤ (V : ℝ) / 10 ^ 9 := by
        rw [div_le_div_iff (by linarith) (by norm_num : (0 : ℝ) < 10 ^ 9)]
        nlinarith [hV0.le]
      exact mul_le_mul_of_nonneg_left (h1.trans h2) hw.le
  · have hform : sequence_complexity_loss_probs (onehotT b L V i) w =
        some (w * (1 - entropy1 (oneHot V i) /
          Real.log (((oneHot V i).length : ℝ)))) := by
      unfold onehotT
      exact complexity_probs_replicate b L (oneHot V i) w hb hL
    have hlenOH : (oneHot V i).length = V := by simp [oneHot]
    rw [hlenOH, entropy1_oneHot hi] at hform
    have hval : w * ((1 : ℝ) - (-(Real.log (1 + 1 / 10 ^ 10))) / Real.log V) =
        w * (1 + Real.log (1 + 1 / 10 ^ 10) / Real.log V) := by
      ring
    rw [hval] at hform
    refine ⟨hform, ?_⟩
    have hlogeps : 0 < Real.log (1 + (1 : ℝ) / 10 ^ 10) :=
      Real.log_pos (by norm_num)
    have hdiff : w * (1 + Real.log (1 + 1 / 10 ^ 10) / Real.log V) - w =
        w * (Real.log (1 + 1 / 10 ^ 10) / Real.log V) := by
      ring
    rw [hdiff, abs_of_nonneg (mul_nonneg hw.le (div_nonneg hlogeps.le hlogV.le))]
    have hA : Real.log (1 + (1 : ℝ) / 10 ^ 10) ≤ 1 / 10 ^ 10 := by
      have := Real.log_le_sub_one_of_pos (show (0 : ℝ) < 1 + 1 / 10 ^ 10 by norm_num)
      linarith
    have h1 : Real.log (1 + (1 : ℝ) / 10 ^ 10) / Real.log V ≤
        ((1 : ℝ) / 10 ^ 10) / Real.log 2 :=
      div_le_div (by norm_num) hA (by linarith) hVle
    have h2 : ((1 : ℝ) / 10 ^ 10) / Real.log 2 ≤ 1 / 10 ^ 9 := by
      rw [div_le_div_iff (by linarith) (by norm_num : (0 : ℝ) < 10 ^ 9)]
      nlinarith
    exact mul_le_mul_of_nonneg_left (h1.trans h2) hw.le

/-- Witness for C8 at batch 1, length 1, vocabulary size 2, base index 0,
with the source's default weight 0.2. -/
theorem sequence_complexity_uniform_and_peaked_witness :
    sequence_complexity_loss (zerosT 1 1 2) (1 / 5) =
      some ((1 / 5) * (Real.log (1 + ((2 : ℕ) : ℝ) / 10 ^ 10) / Real.log ((2 : ℕ) : ℝ))) :=
  (sequence_complexity_uniform_and_peaked 1 1 2 0 (1 / 5) (by norm_num)
    (by norm_num) (by norm_num) (by norm_num) (by norm_num)).1.1
